import Mathlib

/-!
Verification of the ClusterBlast report parser (`parse_antismash.py`).

Strings are modelled as `List Char`; each definition is a shallow embedding
of the corresponding Python function, translated line by line from the
source.  Python's `str.strip()` semantics are modelled on the ASCII range of
Python whitespace (space, TAB, LF, CR, VT, FF); `re` character classes
`\d`, `\s`, `[A-Z]` are modelled on their ASCII range, which covers every
string the parser manipulates.
-/

namespace ClusterBlast

/-- ASCII range of Python's `str.isspace` / regex `\s`. -/
def pyIsSpace (c : Char) : Bool :=
  c = ' ' || c = '\t' || c = '\n' || c = '\r' || c = '\x0b' || c = '\x0c'

/-- ASCII decimal digit, the ASCII range of regex `\d`. -/
def isDigitC (c : Char) : Bool := '0' ≤ c && c ≤ '9'

/-- ASCII uppercase letter, regex `[A-Z]`. -/
def isUpperAZ (c : Char) : Bool := 'A' ≤ c && c ≤ 'Z'

/-- ASCII letter, used for the `[\d\.\-A-Za-z]` class. -/
def isAlphaC (c : Char) : Bool :=
  ('A' ≤ c && c ≤ 'Z') || ('a' ≤ c && c ≤ 'z')

/-- Python `s.lstrip(chars)`: drop the longest prefix of characters
satisfying `p`. -/
def lstripWith (p : Char → Bool) (l : List Char) : List Char :=
  l.dropWhile p

/-- Python `s.rstrip(chars)`: drop the longest suffix of characters
satisfying `p`. -/
def rstripWith (p : Char → Bool) (l : List Char) : List Char :=
  (l.reverse.dropWhile p).reverse

/-- Python `s.strip()` (whitespace on both ends). -/
def pyStrip (l : List Char) : List Char :=
  rstripWith pyIsSpace (lstripWith pyIsSpace l)

/-- Characters removed by `re.sub(r'[\r\n\t]+', '', s)`. -/
def isCrLfTab (c : Char) : Bool := c = '\r' || c = '\n' || c = '\t'

/-- Characters removed by `.replace('"', '').replace("'", "")`. -/
def isQuote (c : Char) : Bool := c = '"' || c = '\''

/-- Characters removed from the end by `s.rstrip(' ,;:')`. -/
def isTrailPunct (c : Char) : Bool := c = ' ' || c = ',' || c = ';' || c = ':'

/-- `normalize_gene_id` (source lines 19-30):
`s.strip()`, then `re.sub(r'[\r\n\t]+','',s)`, then removal of double and
single quotes, then `s.rstrip(' ,;:')`.  (The `pd.isna` guard only concerns
non-string inputs and is outside the string model.) -/
def normalize_gene_id (l : List Char) : List Char :=
  rstripWith isTrailPunct
    (((pyStrip l).filter (fun c => !isCrLfTab c)).filter (fun c => !isQuote c))

/-! ### Basic lemmas about the string primitives -/

theorem mem_rstripWith {p : Char → Bool} {l : List Char} {c : Char}
    (h : c ∈ rstripWith p l) : c ∈ l := by
  unfold rstripWith at h
  rw [List.mem_reverse] at h
  have := (List.dropWhile_sublist (l := l.reverse) p).mem h
  rwa [List.mem_reverse] at this

theorem rstripWith_isPrefix (p : Char → Bool) (l : List Char) :
    rstripWith p l <+: l := by
  unfold rstripWith
  rw [← List.reverse_suffix, List.reverse_reverse]
  exact List.dropWhile_suffix p

theorem mem_lstripWith {p : Char → Bool} {l : List Char} {c : Char}
    (h : c ∈ lstripWith p l) : c ∈ l :=
  (List.dropWhile_sublist p).mem h

theorem mem_pyStrip {l : List Char} {c : Char} (h : c ∈ pyStrip l) : c ∈ l :=
  mem_lstripWith (mem_rstripWith h)

theorem mem_normalize {l : List Char} {c : Char}
    (h : c ∈ normalize_gene_id l) : c ∈ l := by
  unfold normalize_gene_id at h
  have h3 := mem_rstripWith h
  rw [List.mem_filter] at h3
  have h2 := h3.1
  rw [List.mem_filter] at h2
  exact mem_pyStrip h2.1

theorem normalize_no_crlftab {l : List Char} {c : Char}
    (h : c ∈ normalize_gene_id l) : isCrLfTab c = false := by
  unfold normalize_gene_id at h
  have h3 := mem_rstripWith h
  rw [List.mem_filter] at h3
  have h2 := h3.1
  rw [List.mem_filter] at h2
  simpa using h2.2

theorem normalize_no_quote {l : List Char} {c : Char}
    (h : c ∈ normalize_gene_id l) : isQuote c = false := by
  unfold normalize_gene_id at h
  have h3 := mem_rstripWith h
  rw [List.mem_filter] at h3
  simpa using h3.2

theorem pyIsSpace_of_isCrLfTab {c : Char} (h : isCrLfTab c = true) :
    pyIsSpace c = true := by
  simp [isCrLfTab] at h
  rcases h with (h | h) | h <;> subst h <;> rfl

theorem rstripWith_getLast? {p : Char → Bool} {l : List Char} {c : Char}
    (h : (rstripWith p l).getLast? = some c) : p c = false := by
  unfold rstripWith at h
  rw [List.getLast?_reverse] at h
  have := List.head?_dropWhile_not p l.reverse
  rw [h] at this
  exact this

theorem normalize_getLast? {l : List Char} {c : Char}
    (h : (normalize_gene_id l).getLast? = some c) : isTrailPunct c = false :=
  rstripWith_getLast? h

theorem head?_of_isPrefix {l t : List Char} {c : Char} (h : l <+: t)
    (hc : l.head? = some c) : t.head? = some c := by
  obtain ⟨u, hu⟩ := h
  cases l with
  | nil => simp at hc
  | cons a v => simp at hc; subst hc; rw [← hu]; rfl

/-- The head of `pyStrip l` is a non-whitespace character. -/
theorem pyStrip_head? {l : List Char} {c : Char}
    (h : (pyStrip l).head? = some c) : pyIsSpace c = false := by
  have hpre := rstripWith_isPrefix pyIsSpace (lstripWith pyIsSpace l)
  have h2 := head?_of_isPrefix hpre h
  have hn := List.head?_dropWhile_not pyIsSpace l
  unfold lstripWith at h2
  rw [h2] at hn
  exact hn

/-- The first character surviving normalization, when the input contains no
quote characters, is a non-whitespace character. -/
theorem normalize_head? {l : List Char}
    (hq : ∀ c ∈ l, isQuote c = false) {c : Char}
    (h : (normalize_gene_id l).head? = some c) : pyIsSpace c = false := by
  unfold normalize_gene_id at h
  have hs2 : ((pyStrip l).filter (fun c => !isCrLfTab c)).filter
      (fun c => !isQuote c) = (pyStrip l).filter (fun c => !isCrLfTab c) := by
    apply List.filter_eq_self.mpr
    intro a ha
    rw [List.mem_filter] at ha
    have := hq a (mem_pyStrip ha.1)
    simp [this]
  rw [hs2] at h
  have h2 := head?_of_isPrefix
    (rstripWith_isPrefix isTrailPunct ((pyStrip l).filter (fun c => !isCrLfTab c))) h
  -- the head of the filtered strip equals the head of the strip
  cases hcase : pyStrip l with
  | nil => rw [hcase] at h2; simp at h2
  | cons a u =>
    have ha : pyIsSpace a = false := pyStrip_head? (by rw [hcase]; rfl)
    have hfa : isCrLfTab a = false := by
      cases hcc : isCrLfTab a
      · rfl
      · rw [pyIsSpace_of_isCrLfTab hcc] at ha; exact absurd ha (by simp)
    rw [hcase, List.filter_cons_of_pos (by simp [hfa])] at h2
    simp at h2
    subst h2
    exact ha

theorem dropWhile_eq_self_of_head? {p : Char → Bool} {l : List Char}
    (h : ∀ c, l.head? = some c → p c = false) : l.dropWhile p = l := by
  cases l with
  | nil => rfl
  | cons a u => rw [List.dropWhile_cons_of_neg (by simp [h a rfl])]

theorem rstripWith_eq_self_of_getLast? {p : Char → Bool} {l : List Char}
    (h : ∀ c, l.getLast? = some c → p c = false) : rstripWith p l = l := by
  unfold rstripWith
  rw [dropWhile_eq_self_of_head? (by intro c hc; rw [List.head?_reverse] at hc; exact h c hc)]
  exact List.reverse_reverse l

/-- Normalization is idempotent on inputs with no quotes and no VT/FF
characters. -/
theorem normalize_idem {l : List Char}
    (hl : ∀ c ∈ l, isQuote c = false ∧ c ≠ '\x0b' ∧ c ≠ '\x0c') :
    normalize_gene_id (normalize_gene_id l) = normalize_gene_id l := by
  have hlast : ∀ c, (normalize_gene_id l).getLast? = some c →
      pyIsSpace c = false := by
    intro c hc
    have htrail : isTrailPunct c = false := normalize_getLast? hc
    have hmem : c ∈ normalize_gene_id l := List.mem_of_getLast?_eq_some hc
    have hcrlf : isCrLfTab c = false := normalize_no_crlftab hmem
    have hvf := (hl c (mem_normalize hmem)).2
    simp [isTrailPunct] at htrail
    simp [isCrLfTab] at hcrlf
    simp [pyIsSpace]
    tauto
  have hhead : ∀ c, (normalize_gene_id l).head? = some c →
      pyIsSpace c = false := by
    intro c hc
    exact normalize_head? (fun c hc => (hl c hc).1) hc
  conv_lhs => rw [normalize_gene_id]
  have h1 : pyStrip (normalize_gene_id l) = normalize_gene_id l := by
    unfold pyStrip lstripWith
    rw [dropWhile_eq_self_of_head? hhead]
    exact rstripWith_eq_self_of_getLast? hlast
  rw [h1]
  have h2 : (normalize_gene_id l).filter (fun c => !isCrLfTab c)
      = normalize_gene_id l := by
    apply List.filter_eq_self.mpr
    intro a ha
    simp [normalize_no_crlftab ha]
  rw [h2]
  have h3 : (normalize_gene_id l).filter (fun c => !isQuote c)
      = normalize_gene_id l := by
    apply List.filter_eq_self.mpr
    intro a ha
    simp [normalize_no_quote ha]
  rw [h3]
  exact rstripWith_eq_self_of_getLast?
    (fun c hc => normalize_getLast? (l := l) hc)

/-! ### Claim C3: gene-id normalization -/

/-- C3 (counterexample): `normalize_gene_id` is not idempotent on every
string.  On the four-character input `" a"` (double quote, space, `a`,
double quote) one application yields `" a"` with a leading space — the
quotes protected the space from the initial `strip()` — and a second
application removes it, so normalizing the already-normalized id changes
it, contradicting the claim's unrestricted idempotence (and its
unrestricted removal of leading whitespace). -/
theorem C3_counterexample :
    ¬ (normalize_gene_id (normalize_gene_id (['"', ' ', 'a', '"'])) =
       normalize_gene_id (['"', ' ', 'a', '"'])) := by decide

/-- C3 (amended): on inputs containing no quote characters and no
vertical-tab/form-feed characters, `normalize_gene_id` is idempotent; on
every input it removes all CR/LF/TAB and all double/single quotes and
leaves no trailing space/comma/semicolon/colon; and the input consisting
of two spaces, `geneA_1`, a tab, a comma and a newline normalizes to
`geneA_1`. -/
theorem C3_amended_thm :
    (∀ l : List Char,
       (∀ c ∈ l, isQuote c = false ∧ c ≠ '\x0b' ∧ c ≠ '\x0c') →
       normalize_gene_id (normalize_gene_id l) = normalize_gene_id l) ∧
    (∀ l : List Char, ∀ c ∈ normalize_gene_id l,
       isCrLfTab c = false ∧ isQuote c = false) ∧
    (∀ l : List Char, ∀ c, (normalize_gene_id l).getLast? = some c →
       isTrailPunct c = false) ∧
    normalize_gene_id ("  geneA_1\t,\n".toList) = "geneA_1".toList := by
  refine ⟨fun l hl => normalize_idem hl,
    fun l c hc => ⟨normalize_no_crlftab hc, normalize_no_quote hc⟩,
    fun l c hc => normalize_getLast? hc, by decide⟩

/-- C3 witness: the amended idempotence applied at the concrete
quote-free input `"  geneA_1\t,\n"`. -/
theorem C3_amended_witness :
    normalize_gene_id (normalize_gene_id ("  geneA_1\t,\n".toList)) =
      normalize_gene_id ("  geneA_1\t,\n".toList) :=
  C3_amended_thm.1 _ (by decide)

/-! ### Cluster-identifier cleaning (source line 146) -/

/-- `re.sub(r'\..*$', '', bgc_id)` on a newline-free identifier: the
leftmost match starts at the first `.` and runs to the end of the string,
so everything from the first `.` on is deleted. -/
def cleanBgcId : List Char → List Char
  | [] => []
  | c :: cs => if c = '.' then [] else c :: cleanBgcId cs

/-- C5: cluster-identifier cleaning truncates at the first `.`: the part
before the first `.` is returned and the dot and everything after it are
discarded; an identifier without `.` is returned unchanged;
`BGC0001089.5` becomes `BGC0001089`. -/
theorem C5_clean_bgc_id :
    (∀ l : List Char, '.' ∈ l →
       ∃ rest, l = cleanBgcId l ++ '.' :: rest ∧ '.' ∉ cleanBgcId l) ∧
    (∀ l : List Char, '.' ∉ l → cleanBgcId l = l) ∧
    cleanBgcId ("BGC0001089.5".toList) = "BGC0001089".toList := by
  refine ⟨fun l hl => ?_, fun l hl => ?_, by decide⟩
  · induction l with
    | nil => simp at hl
    | cons c cs ih =>
      by_cases hc : c = '.'
      · subst hc
        exact ⟨cs, by simp [cleanBgcId], by simp [cleanBgcId]⟩
      · have hmem : '.' ∈ cs := by
          rcases List.mem_cons.mp hl with h | h
          · exact absurd h.symm hc
          · exact h
        obtain ⟨rest, h1, h2⟩ := ih hmem
        refine ⟨rest, ?_, ?_⟩
        · simp only [cleanBgcId, if_neg hc]
          rw [List.cons_append, ← h1]
        · simp only [cleanBgcId, if_neg hc]
          intro hmem2
          rcases List.mem_cons.mp hmem2 with h | h
          · exact hc h.symm
          · exact h2 h
  · induction l with
    | nil => rfl
    | cons c cs ih =>
      have hc : c ≠ '.' := fun h => hl (by rw [h]; exact List.mem_cons_self _ _)
      have hcs : '.' ∉ cs := fun h => hl (List.mem_cons_of_mem _ h)
      simp only [cleanBgcId, if_neg (fun h => hc h)]
      rw [ih hcs]

/-- C5 witness: the truncation fact applied at `BGC0001089.5`, and the
no-dot identity applied at `BGC77`. -/
theorem C5_clean_bgc_id_witness :
    (∃ rest, "BGC0001089.5".toList =
        cleanBgcId ("BGC0001089.5".toList) ++ '.' :: rest ∧
        '.' ∉ cleanBgcId ("BGC0001089.5".toList)) ∧
    cleanBgcId ("BGC77".toList) = "BGC77".toList :=
  ⟨C5_clean_bgc_id.1 _ (by decide), C5_clean_bgc_id.2.1 _ (by decide)⟩

/-! ### Line splitting: Python `split('\t')` and whitespace `split()` -/

/-- Python `s.split('\t')`: split at every TAB, keeping empty fields. -/
def splitTab : List Char → List (List Char)
  | [] => [[]]
  | c :: cs =>
    match splitTab cs with
    | [] => [[c]]
    | h :: t => if c = '\t' then [] :: h :: t else (c :: h) :: t

/-- Accumulator loop for Python whitespace `s.split()`. -/
def wsTokensAux : List Char → List Char → List (List Char)
  | [], acc => if acc = [] then [] else [acc.reverse]
  | c :: cs, acc =>
    if pyIsSpace c then
      if acc = [] then wsTokensAux cs []
      else acc.reverse :: wsTokensAux cs []
    else wsTokensAux cs (c :: acc)

/-- Python `s.split()` with no argument: split on runs of whitespace,
producing no empty tokens. -/
def wsTokens (l : List Char) : List (List Char) := wsTokensAux l []

/-- Python `' '.flatten(tokens)`. -/
def joinSpace (ts : List (List Char)) : List Char :=
  List.intercalate [' '] ts

/-! ### Per-line parsers (hit table and query-cluster table) -/

/-- One parsed blast-hit line: the six positional fields
(source lines 166-172 and 189-195). -/
structure HitFields where
  query_gene : List Char
  subject_gene : List Char
  pct_identity : List Char
  blast_score : List Char
  pct_coverage : List Char
  evalue : List Char
deriving DecidableEq, Repr

/-- Parse one hit-table line (source lines 164-210): split on TAB; with at
least 6 fields take fields 0-5 (gene normalized, the rest `strip()`ped);
otherwise fall back to a whitespace split and, with at least 6 tokens,
take tokens 0-5 (dropping any extra tokens); otherwise skip the line. -/
def parseHitLine (l : List Char) : Option HitFields :=
  let parts := splitTab l
  if 6 ≤ parts.length then
    some ⟨normalize_gene_id (parts.getD 0 []), pyStrip (parts.getD 1 []),
      pyStrip (parts.getD 2 []), pyStrip (parts.getD 3 []),
      pyStrip (parts.getD 4 []), pyStrip (parts.getD 5 [])⟩
  else
    let pw := wsTokens l
    if 6 ≤ pw.length then
      some ⟨normalize_gene_id (pw.getD 0 []), pw.getD 1 [], pw.getD 2 [],
        pw.getD 3 [], pw.getD 4 [], pw.getD 5 []⟩
    else none

/-- One parsed query-cluster-table line (source lines 44-76). -/
structure QueryFields where
  query_gene : List Char
  start : List Char
  stop : List Char
  strand : List Char
  annotation : Option (List Char)
deriving DecidableEq, Repr

/-- Parse one query-cluster-table line (source lines 44-76, after the
`rstrip("\n")`): split on TAB; with at least 5 fields take fields 0-4
(gene normalized, fields 1-3 `strip()`ped, annotation `strip()`ped but
`None` when field 4 is the empty string); otherwise fall back to a
whitespace split and, with at least 5 tokens, join all tokens from
position 4 on with single spaces into the annotation. -/
def parseQueryLine (l0 : List Char) : Option QueryFields :=
  let l := rstripWith (fun c => c = '\n') l0
  let parts := splitTab l
  if 5 ≤ parts.length then
    some ⟨normalize_gene_id (parts.getD 0 []), pyStrip (parts.getD 1 []),
      pyStrip (parts.getD 2 []), pyStrip (parts.getD 3 []),
      if parts.getD 4 [] = [] then none else some (pyStrip (parts.getD 4 []))⟩
  else
    let pw := wsTokens l
    if 5 ≤ pw.length then
      some ⟨normalize_gene_id (pw.getD 0 []), pw.getD 1 [], pw.getD 2 [],
        pw.getD 3 [], some (joinSpace (pw.drop 4))⟩
    else none

/-! ### Claims C6 and C7: the dual parse strategy -/

/-- C7: for every hit line whose TAB split has at least 6 fields the
delimiter-based parse is used — the six fields are taken positionally from
the TAB split (field 0 normalized, fields 1-5 stripped) — and the
whitespace fallback is never attempted, whatever whitespace the fields
contain. -/
theorem C7_tab_parse_preferred (l : List Char)
    (h : 6 ≤ (splitTab l).length) :
    parseHitLine l = some ⟨normalize_gene_id ((splitTab l).getD 0 []),
      pyStrip ((splitTab l).getD 1 []), pyStrip ((splitTab l).getD 2 []),
      pyStrip ((splitTab l).getD 3 []), pyStrip ((splitTab l).getD 4 []),
      pyStrip ((splitTab l).getD 5 [])⟩ := by
  simp only [parseHitLine, if_pos h]

/-- C7 witness: a line with 6 tab-delimited fields whose first two fields
contain internal spaces is parsed by the delimiter strategy (the internal
spaces survive), not by the whitespace fallback. -/
theorem C7_tab_parse_preferred_witness :
    parseHitLine ("gene 1\tsub j\t90.5\t200\t88\t1e-50".toList) =
      some ⟨"gene 1".toList, "sub j".toList, "90.5".toList, "200".toList,
        "88".toList, "1e-50".toList⟩ := by
  rw [C7_tab_parse_preferred _ (by decide)]
  decide

/-- C6: in the whitespace-split fallback (TAB split too short), the hit
parser takes exactly whitespace tokens 0-5 and drops any further tokens,
while the query-cluster parser joins all tokens from position 4 on,
space-separated, into a single annotation string. -/
theorem C6_ws_fallback :
    (∀ l : List Char, (splitTab l).length < 6 → 6 ≤ (wsTokens l).length →
       parseHitLine l = some ⟨normalize_gene_id ((wsTokens l).getD 0 []),
         (wsTokens l).getD 1 [], (wsTokens l).getD 2 [],
         (wsTokens l).getD 3 [], (wsTokens l).getD 4 [],
         (wsTokens l).getD 5 []⟩) ∧
    (∀ l : List Char, (splitTab l).length < 5 → 5 ≤ (wsTokens l).length →
       rstripWith (fun c => c = '\n') l = l →
       parseQueryLine l = some ⟨normalize_gene_id ((wsTokens l).getD 0 []),
         (wsTokens l).getD 1 [], (wsTokens l).getD 2 [],
         (wsTokens l).getD 3 [],
         some (joinSpace ((wsTokens l).drop 4))⟩) := by
  constructor
  · intro l h1 h2
    simp only [parseHitLine]
    rw [if_neg (by omega : ¬ 6 ≤ (splitTab l).length), if_pos h2]
  · intro l h1 h2 h3
    simp only [parseQueryLine, h3]
    rw [if_neg (by omega : ¬ 5 ≤ (splitTab l).length), if_pos h2]

/-- C6 witness: a seven-token hit line keeps only tokens 0-5 (the trailing
`extra` token is dropped), while a seven-token query line folds tokens 4-6
into the single annotation `hypothetical protein kinase`. -/
theorem C6_ws_fallback_witness :
    parseHitLine ("g1 s1 90.5 200 88 1e-50 extra".toList) =
      some ⟨"g1".toList, "s1".toList, "90.5".toList, "200".toList,
        "88".toList, "1e-50".toList⟩ ∧
    parseQueryLine ("g1 10 20 + hypothetical protein kinase".toList) =
      some ⟨"g1".toList, "10".toList, "20".toList, "+".toList,
        some ("hypothetical protein kinase".toList)⟩ := by
  constructor
  · rw [C6_ws_fallback.1 _ (by decide) (by decide)]
    decide
  · rw [C6_ws_fallback.2 _ (by decide) (by decide) (by decide)]
    decide

/-! ### Report segmentation (source lines 107-117) -/

/-- Primary block-start marker: `ln.strip().startswith(">>")`. -/
def isPrimaryMarker (ln : List Char) : Bool :=
  List.isPrefixOf ['>', '>'] (pyStrip ln)

/-- Fallback marker: `re.match(r'^\d+\.\s+BGC', ln.strip())` — an integer
ordinal, a dot, whitespace and the literal `BGC`. -/
def isFallbackMarker (ln : List Char) : Bool :=
  let s := pyStrip ln
  let d := s.takeWhile isDigitC
  if d.isEmpty then false
  else
    match s.drop d.length with
    | '.' :: r2 =>
      let w := r2.takeWhile pyIsSpace
      if w.isEmpty then false
      else List.isPrefixOf ['B', 'G', 'C'] (r2.drop w.length)
    | _ => false

/-- Indices (from offset `n`) of the lines satisfying `p` — the list
comprehension `[i for i, ln in enumerate(lines) if p(ln)]`. -/
def idxsFrom (p : List Char → Bool) : Nat → List (List Char) → List Nat
  | _, [] => []
  | i, ln :: rest =>
    if p ln then i :: idxsFrom p (i + 1) rest else idxsFrom p (i + 1) rest

def idxsWhere (p : List Char → Bool) (lines : List (List Char)) : List Nat :=
  idxsFrom p 0 lines

/-- Source lines 107-110: scan for `>>` markers; only when none exist run
the fallback scan. -/
def blockIdxs (lines : List (List Char)) : List Nat :=
  if idxsWhere isPrimaryMarker lines = [] then idxsWhere isFallbackMarker lines
  else idxsWhere isPrimaryMarker lines

/-- Source lines 112-117: each block spans from its start index to the
next start index (exclusive), or to end-of-file for the last block
(`lines[start_idx:end_idx]`). -/
def mkBlocks (lines : List (List Char)) : List Nat → List (List (List Char))
  | [] => []
  | i :: rest =>
    ((lines.drop i).take (rest.headD lines.length - i)) :: mkBlocks lines rest

def parseBlocks (lines : List (List Char)) : List (List (List Char)) :=
  mkBlocks lines (blockIdxs lines)

theorem idxsFrom_ge {p : List Char → Bool} :
    ∀ (l : List (List Char)) (n : Nat), ∀ j ∈ idxsFrom p n l, n ≤ j := by
  intro l
  induction l with
  | nil => intro n j hj; simp [idxsFrom] at hj
  | cons a t ih =>
    intro n j hj
    simp only [idxsFrom] at hj
    by_cases hp : p a
    · rw [if_pos hp] at hj
      rcases List.mem_cons.mp hj with h | h
      · omega
      · have := ih (n + 1) j h; omega
    · rw [if_neg hp] at hj
      have := ih (n + 1) j hj; omega

theorem idxsFrom_lt {p : List Char → Bool} :
    ∀ (l : List (List Char)) (n : Nat), ∀ j ∈ idxsFrom p n l,
      j < n + l.length := by
  intro l
  induction l with
  | nil => intro n j hj; simp [idxsFrom] at hj
  | cons a t ih =>
    intro n j hj
    simp only [idxsFrom] at hj
    by_cases hp : p a
    · rw [if_pos hp] at hj
      rcases List.mem_cons.mp hj with h | h
      · simp only [List.length_cons, h]; omega
      · have := ih (n + 1) j h; simp only [List.length_cons]; omega
    · rw [if_neg hp] at hj
      have := ih (n + 1) j hj; simp only [List.length_cons]; omega

theorem idxsFrom_pairwise {p : List Char → Bool} :
    ∀ (l : List (List Char)) (n : Nat),
      (idxsFrom p n l).Pairwise (· < ·) := by
  intro l
  induction l with
  | nil => intro n; simp [idxsFrom]
  | cons a t ih =>
    intro n
    simp only [idxsFrom]
    by_cases hp : p a
    · rw [if_pos hp]
      refine List.Pairwise.cons ?_ (ih (n + 1))
      intro j hj
      have := idxsFrom_ge t (n + 1) j hj
      omega
    · rw [if_neg hp]
      exact ih (n + 1)

theorem blockIdxs_pairwise (lines : List (List Char)) :
    (blockIdxs lines).Pairwise (· < ·) := by
  unfold blockIdxs idxsWhere
  split
  · exact idxsFrom_pairwise lines 0
  · exact idxsFrom_pairwise lines 0

theorem blockIdxs_le (lines : List (List Char)) :
    ∀ j ∈ blockIdxs lines, j ≤ lines.length := by
  intro j hj
  unfold blockIdxs idxsWhere at hj
  split at hj
  · have := idxsFrom_lt lines 0 j hj; omega
  · have := idxsFrom_lt lines 0 j hj; omega

/-- Blocks cover the tail of the file, contiguously and without overlap:
joining the blocks produced from a sorted, in-range index list gives back
exactly the lines from the first marker to end-of-file. -/
theorem mkBlocks_join (lines : List (List Char)) :
    ∀ idxs : List Nat, idxs.Pairwise (· < ·) →
      (∀ j ∈ idxs, j ≤ lines.length) →
      (mkBlocks lines idxs).flatten =
        (match idxs with | [] => [] | i :: _ => lines.drop i) := by
  intro idxs
  induction idxs with
  | nil => intro _ _; rfl
  | cons i rest ih =>
    intro hpw hle
    have hrest := List.Pairwise.of_cons hpw
    have hlerest : ∀ j ∈ rest, j ≤ lines.length :=
      fun j hj => hle j (List.mem_cons_of_mem _ hj)
    simp only [mkBlocks, List.flatten_cons]
    rw [ih hrest hlerest]
    cases rest with
    | nil =>
      simp only [List.headD]
      rw [List.take_of_length_le (by simp)]
      simp
    | cons jj rest' =>
      simp only [List.headD]
      have hij : i < jj := (List.pairwise_cons.mp hpw).1 jj (List.mem_cons_self _ _)
      have : lines.drop jj = List.drop (jj - i) (lines.drop i) := by
        rw [List.drop_drop]
        congr 1
        omega
      rw [this, List.take_append_drop]

/-! ### Claim C4: the report segmenter -/

/-- C4: the segmenter scans every line for the primary `>>` marker; only
when zero primary markers exist does it run the fallback ordinal-`BGC`
scan; each block spans from its marker line to the line before the next
marker (end-of-file for the last), so the blocks are contiguous and
non-overlapping (their concatenation is exactly the file tail from the
first marker) and zero blocks is a valid non-error result. -/
theorem C4_segmenter (lines : List (List Char)) :
    (idxsWhere isPrimaryMarker lines ≠ [] →
       blockIdxs lines = idxsWhere isPrimaryMarker lines) ∧
    (idxsWhere isPrimaryMarker lines = [] →
       blockIdxs lines = idxsWhere isFallbackMarker lines) ∧
    (blockIdxs lines = [] → parseBlocks lines = []) ∧
    (∀ i rest, blockIdxs lines = i :: rest →
       (parseBlocks lines).flatten = lines.drop i) := by
  refine ⟨fun h => ?_, fun h => ?_, fun h => ?_, fun i rest h => ?_⟩
  · unfold blockIdxs; rw [if_neg h]
  · unfold blockIdxs; rw [if_pos h]
  · unfold parseBlocks; rw [h]; rfl
  · unfold parseBlocks
    rw [mkBlocks_join lines (blockIdxs lines) (blockIdxs_pairwise lines)
      (blockIdxs_le lines), h]

/-- C4 witness: a four-line file with two `>>` markers — the primary scan
wins and the two blocks join back to the whole file (the first marker is
line 0). -/
theorem C4_segmenter_witness :
    blockIdxs ([">> one".toList, "a".toList, ">> two".toList, "b".toList]) =
      idxsWhere isPrimaryMarker
        ([">> one".toList, "a".toList, ">> two".toList, "b".toList]) ∧
    (parseBlocks ([">> one".toList, "a".toList, ">> two".toList,
        "b".toList])).flatten =
      ([">> one".toList, "a".toList, ">> two".toList, "b".toList]).drop 0 := by
  constructor
  · exact (C4_segmenter _).1 (by decide)
  · exact (C4_segmenter _).2.2.2 0 [2] (by decide)

/-! ### Block metadata extraction (source lines 119-142) -/

/-- Character class `[\d\.\-A-Za-z]`. -/
def isClsChar (c : Char) : Bool :=
  isDigitC c || c = '.' || c = '-' || isAlphaC c

/-- `re.match(r'^\d+\.\s+([A-Z]{3}\d+[\d\.\-A-Za-z]*)', s)`, returning the
captured group: ordinal digits, a dot, whitespace, three uppercase
letters, at least one digit, then any run of `[\d.\-A-Za-z]`. -/
def pat1 (s : List Char) : Option (List Char) :=
  let d := s.takeWhile isDigitC
  if d.isEmpty then none
  else
    match s.drop d.length with
    | '.' :: r2 =>
      let w := r2.takeWhile pyIsSpace
      if w.isEmpty then none
      else
        match r2.drop w.length with
        | a :: b :: c :: r4 =>
          if isUpperAZ a && isUpperAZ b && isUpperAZ c then
            let ds := r4.takeWhile isDigitC
            if ds.isEmpty then none
            else
              some (a :: b :: c ::
                (ds ++ (r4.drop ds.length).takeWhile isClsChar))
          else none
        | _ => none
    | _ => none

/-- `re.match(r'^\d+\.\s+(BGC[0-9\.\-]+)', s)`, returning the captured
group. -/
def pat2 (s : List Char) : Option (List Char) :=
  let d := s.takeWhile isDigitC
  if d.isEmpty then none
  else
    match s.drop d.length with
    | '.' :: r2 =>
      let w := r2.takeWhile pyIsSpace
      if w.isEmpty then none
      else
        match r2.drop w.length with
        | 'B' :: 'G' :: 'C' :: r4 =>
          let ds := r4.takeWhile (fun c => isDigitC c || c = '.' || c = '-')
          if ds.isEmpty then none else some ('B' :: 'G' :: 'C' :: ds)
        | _ => none
    | _ => none

/-- `s.split(":", 1)[1]` for a string known to contain a colon: everything
after the first colon. -/
def afterColon (s : List Char) : List Char :=
  (s.dropWhile (fun x => x ≠ ':')).drop 1

/-- The five metadata fields of a cluster block (source lines 119-123),
each `None` until a header line provides it. -/
structure BlockMeta where
  bgc_id : Option (List Char)
  source_name : Option (List Char)
  bgc_type : Option (List Char)
  proteins_with_hits : Option (List Char)
  cum_score : Option (List Char)
deriving DecidableEq, Repr

def initMeta : BlockMeta := ⟨none, none, none, none, none⟩

/-- `Source:` label value of a stripped line, when it carries one. -/
def sourceVal (s : List Char) : Option (List Char) :=
  if List.isPrefixOf ("Source:".toList) s then some (pyStrip (s.drop 7))
  else none

/-- `Type:` label value. -/
def typeVal (s : List Char) : Option (List Char) :=
  if List.isPrefixOf ("Type:".toList) s then some (pyStrip (s.drop 5))
  else none

/-- `Number of proteins with BLAST hits to this cluster:` label value
(taken after the first colon of the line, per `split(":", 1)`). -/
def proteinsVal (s : List Char) : Option (List Char) :=
  if List.isPrefixOf
      ("Number of proteins with BLAST hits to this cluster:".toList) s then
    some (pyStrip (afterColon s))
  else none

/-- `Cumulative BLAST score:` label value. -/
def cumVal (s : List Char) : Option (List Char) :=
  if List.isPrefixOf ("Cumulative BLAST score:".toList) s then
    some (pyStrip (afterColon s))
  else none

/-- `if m_bgc: bgc_id = m_bgc.group(1)` (source lines 127-129):
an unconditional overwrite. -/
def stepBgc1 (m : BlockMeta) (s : List Char) : BlockMeta :=
  match pat1 s with
  | some g => { m with bgc_id := some g }
  | none => m

/-- `if ln_stripped.startswith("Source:")` (source lines 130-132):
an unconditional overwrite. -/
def stepSource (m : BlockMeta) (s : List Char) : BlockMeta :=
  match sourceVal s with
  | some v => { m with source_name := some v }
  | none => m

/-- `if ln_stripped.startswith("Type:")` (source lines 133-134). -/
def stepType (m : BlockMeta) (s : List Char) : BlockMeta :=
  match typeVal s with
  | some v => { m with bgc_type := some v }
  | none => m

/-- Source lines 135-136. -/
def stepProteins (m : BlockMeta) (s : List Char) : BlockMeta :=
  match proteinsVal s with
  | some v => { m with proteins_with_hits := some v }
  | none => m

/-- Source lines 137-138. -/
def stepCum (m : BlockMeta) (s : List Char) : BlockMeta :=
  match cumVal s with
  | some v => { m with cum_score := some v }
  | none => m

/-- `if m2 and not bgc_id` (source lines 140-142): the fallback pattern
fills `bgc_id` only when it is still unset. -/
def stepBgc2 (m : BlockMeta) (s : List Char) : BlockMeta :=
  match pat2 s with
  | some g =>
    match m.bgc_id with
    | none => { m with bgc_id := some g }
    | some _ => m
  | none => m

/-- One iteration of the metadata loop (source lines 125-142): the line is
stripped and the five pattern checks run in source order. -/
def stepMeta (m : BlockMeta) (ln : List Char) : BlockMeta :=
  let s := pyStrip ln
  stepBgc2 (stepCum (stepProteins (stepType (stepSource (stepBgc1 m s) s) s) s) s) s

/-- Metadata extraction over the bounded window `block[:15]`. -/
def extractMeta (block : List (List Char)) : BlockMeta :=
  (block.take 15).foldl stepMeta initMeta

theorem stepMeta_source (m : BlockMeta) (ln : List Char) :
    (stepMeta m ln).source_name =
      match sourceVal (pyStrip ln) with
      | some v => some v
      | none => m.source_name := by
  obtain ⟨b, so, ty, pr, cu⟩ := m
  simp only [stepMeta, stepBgc1, stepSource, stepType, stepProteins,
    stepCum, stepBgc2]
  cases b <;> cases pat1 (pyStrip ln) <;> cases sourceVal (pyStrip ln) <;>
    cases typeVal (pyStrip ln) <;> cases proteinsVal (pyStrip ln) <;>
      cases cumVal (pyStrip ln) <;> cases pat2 (pyStrip ln) <;> rfl

theorem stepMeta_type (m : BlockMeta) (ln : List Char) :
    (stepMeta m ln).bgc_type =
      match typeVal (pyStrip ln) with
      | some v => some v
      | none => m.bgc_type := by
  obtain ⟨b, so, ty, pr, cu⟩ := m
  simp only [stepMeta, stepBgc1, stepSource, stepType, stepProteins,
    stepCum, stepBgc2]
  cases b <;> cases pat1 (pyStrip ln) <;> cases sourceVal (pyStrip ln) <;>
    cases typeVal (pyStrip ln) <;> cases proteinsVal (pyStrip ln) <;>
      cases cumVal (pyStrip ln) <;> cases pat2 (pyStrip ln) <;> rfl

theorem stepMeta_proteins (m : BlockMeta) (ln : List Char) :
    (stepMeta m ln).proteins_with_hits =
      match proteinsVal (pyStrip ln) with
      | some v => some v
      | none => m.proteins_with_hits := by
  obtain ⟨b, so, ty, pr, cu⟩ := m
  simp only [stepMeta, stepBgc1, stepSource, stepType, stepProteins,
    stepCum, stepBgc2]
  cases b <;> cases pat1 (pyStrip ln) <;> cases sourceVal (pyStrip ln) <;>
    cases typeVal (pyStrip ln) <;> cases proteinsVal (pyStrip ln) <;>
      cases cumVal (pyStrip ln) <;> cases pat2 (pyStrip ln) <;> rfl

theorem stepMeta_cum (m : BlockMeta) (ln : List Char) :
    (stepMeta m ln).cum_score =
      match cumVal (pyStrip ln) with
      | some v => some v
      | none => m.cum_score := by
  obtain ⟨b, so, ty, pr, cu⟩ := m
  simp only [stepMeta, stepBgc1, stepSource, stepType, stepProteins,
    stepCum, stepBgc2]
  cases b <;> cases pat1 (pyStrip ln) <;> cases sourceVal (pyStrip ln) <;>
    cases typeVal (pyStrip ln) <;> cases proteinsVal (pyStrip ln) <;>
      cases cumVal (pyStrip ln) <;> cases pat2 (pyStrip ln) <;> rfl

theorem stepMeta_bgc (m : BlockMeta) (ln : List Char) :
    (stepMeta m ln).bgc_id =
      match pat1 (pyStrip ln) with
      | some g => some g
      | none =>
        match m.bgc_id with
        | some b => some b
        | none => pat2 (pyStrip ln) := by
  obtain ⟨b, so, ty, pr, cu⟩ := m
  simp only [stepMeta, stepBgc1, stepSource, stepType, stepProteins,
    stepCum, stepBgc2]
  cases b <;> cases pat1 (pyStrip ln) <;> cases sourceVal (pyStrip ln) <;>
    cases typeVal (pyStrip ln) <;> cases proteinsVal (pyStrip ln) <;>
      cases cumVal (pyStrip ln) <;> cases pat2 (pyStrip ln) <;> rfl

/-- Generic "last matching line wins" characterization of the metadata
fold, for a field that every matching line overwrites. -/
theorem foldl_lastWins (f : List Char → Option (List Char))
    (proj : BlockMeta → Option (List Char))
    (hstep : ∀ m ln, proj (stepMeta m ln) =
      match f ln with | some v => some v | none => proj m) :
    ∀ (ws : List (List Char)) (m : BlockMeta),
      proj (ws.foldl stepMeta m) =
        match (ws.filterMap f).getLast? with
        | some v => some v
        | none => proj m := by
  intro ws
  induction ws with
  | nil => intro m; rfl
  | cons ln t ih =>
    intro m
    rw [List.foldl_cons, ih (stepMeta m ln), hstep m ln]
    cases hfa : f ln with
    | none => rw [List.filterMap_cons_none hfa]
    | some v =>
      rw [List.filterMap_cons_some hfa]
      cases ht : t.filterMap f with
      | nil => rfl
      | cons x xs =>
        rw [List.getLast?_cons_cons]
        cases hlast : (x :: xs).getLast? with
        | some w => rfl
        | none => exact absurd (List.getLast?_eq_none_iff.mp hlast) (by simp)

/-- Characterization of the identifier fold: the last line matching the
general ordinal pattern wins; when no line matches it, the first line
matching the `BGC`-prefixed fallback pattern fills the field. -/
theorem foldl_bgc :
    ∀ (ws : List (List Char)) (m : BlockMeta),
      (ws.foldl stepMeta m).bgc_id =
        match (ws.filterMap (fun ln => pat1 (pyStrip ln))).getLast? with
        | some v => some v
        | none =>
          match m.bgc_id with
          | some b => some b
          | none => (ws.filterMap (fun ln => pat2 (pyStrip ln))).head? := by
  intro ws
  induction ws with
  | nil =>
    intro m
    simp only [List.foldl_nil, List.filterMap_nil]
    cases hm : m.bgc_id <;> rfl
  | cons ln t ih =>
    intro m
    rw [List.foldl_cons, ih (stepMeta m ln), stepMeta_bgc m ln]
    cases hfa : pat1 (pyStrip ln) with
    | some v =>
      rw [@List.filterMap_cons_some _ _ (fun ln => pat1 (pyStrip ln)) ln t v hfa]
      cases ht : t.filterMap (fun ln => pat1 (pyStrip ln)) with
      | nil => rfl
      | cons x xs =>
        rw [List.getLast?_cons_cons]
        cases hlast : (x :: xs).getLast? with
        | some w => rfl
        | none => exact absurd (List.getLast?_eq_none_iff.mp hlast) (by simp)
    | none =>
      rw [@List.filterMap_cons_none _ _ (fun ln => pat1 (pyStrip ln)) ln t hfa]
      cases hm : m.bgc_id with
      | some b => rfl
      | none =>
        cases hp2 : pat2 (pyStrip ln) with
        | some g =>
          rw [@List.filterMap_cons_some _ _ (fun ln => pat2 (pyStrip ln)) ln t g hp2]
          cases ht : t.filterMap (fun ln => pat1 (pyStrip ln)) <;> rfl
        | none =>
          rw [@List.filterMap_cons_none _ _ (fun ln => pat2 (pyStrip ln)) ln t hp2]

/-! ### Claim C2: the metadata window -/

/-- Modelled from the spec's words for claim C2 ("take the first match for
each field"): a first-match-wins extractor over the same 15-line window
and the same per-field patterns, used to compare the claimed semantics
with the code's. -/
def extractMetaFirstSpec (block : List (List Char)) : BlockMeta :=
  let w := block.take 15
  ⟨(w.filterMap (fun ln =>
      match pat1 (pyStrip ln) with
      | some g => some g
      | none => pat2 (pyStrip ln))).head?,
   (w.filterMap (fun ln => sourceVal (pyStrip ln))).head?,
   (w.filterMap (fun ln => typeVal (pyStrip ln))).head?,
   (w.filterMap (fun ln => proteinsVal (pyStrip ln))).head?,
   (w.filterMap (fun ln => cumVal (pyStrip ln))).head?⟩

/-- C2 (counterexample): on a block whose first 15 lines contain two
`Source:` lines, the extractor keeps the value of the *second* one —
each matching line overwrites the field, so the last match wins, not the
first as claimed.  The claimed first-match extractor disagrees with the
code on this block. -/
theorem C2_counterexample :
    (extractMeta ([">> x".toList, "Source: A".toList, "Source: B".toList])).source_name
        = some ("B".toList) ∧
    (extractMetaFirstSpec ([">> x".toList, "Source: A".toList,
        "Source: B".toList])).source_name = some ("A".toList) ∧
    extractMeta ([">> x".toList, "Source: A".toList, "Source: B".toList]) ≠
      extractMetaFirstSpec ([">> x".toList, "Source: A".toList,
        "Source: B".toList]) := by
  refine ⟨by decide, by decide, by decide⟩

/-- C2 (amended): over the 15-line window the code takes the *last*
matching line for each of the four labelled fields (`Source:`, `Type:`,
protein-hit count, cumulative score); the identifier is the value of the
last window line matching the general ordinal pattern
`^\d+\.\s+[A-Z]{3}\d+...`, and only when no line matches it does the
first line matching the `BGC`-prefixed fallback pattern fill the field. -/
theorem C2_amended_thm (block : List (List Char)) :
    (extractMeta block).source_name =
      (((block.take 15).filterMap (fun ln => sourceVal (pyStrip ln))).getLast?) ∧
    (extractMeta block).bgc_type =
      (((block.take 15).filterMap (fun ln => typeVal (pyStrip ln))).getLast?) ∧
    (extractMeta block).proteins_with_hits =
      (((block.take 15).filterMap (fun ln => proteinsVal (pyStrip ln))).getLast?) ∧
    (extractMeta block).cum_score =
      (((block.take 15).filterMap (fun ln => cumVal (pyStrip ln))).getLast?) ∧
    (extractMeta block).bgc_id =
      (match ((block.take 15).filterMap (fun ln => pat1 (pyStrip ln))).getLast? with
       | some v => some v
       | none =>
         ((block.take 15).filterMap (fun ln => pat2 (pyStrip ln))).head?) := by
  have hmatch : ∀ o : Option (List Char),
      (match o with | some v => some v | none => (none : Option (List Char))) = o := by
    intro o; cases o <;> rfl
  refine ⟨?_, ?_, ?_, ?_, ?_⟩
  · rw [extractMeta,
      foldl_lastWins (fun ln => sourceVal (pyStrip ln)) BlockMeta.source_name
        (fun m ln => stepMeta_source m ln) (block.take 15) initMeta]
    exact hmatch _
  · rw [extractMeta,
      foldl_lastWins (fun ln => typeVal (pyStrip ln)) BlockMeta.bgc_type
        (fun m ln => stepMeta_type m ln) (block.take 15) initMeta]
    exact hmatch _
  · rw [extractMeta,
      foldl_lastWins (fun ln => proteinsVal (pyStrip ln))
        BlockMeta.proteins_with_hits
        (fun m ln => stepMeta_proteins m ln) (block.take 15) initMeta]
    exact hmatch _
  · rw [extractMeta,
      foldl_lastWins (fun ln => cumVal (pyStrip ln)) BlockMeta.cum_score
        (fun m ln => stepMeta_cum m ln) (block.take 15) initMeta]
    exact hmatch _
  · rw [extractMeta, foldl_bgc (block.take 15) initMeta]
    cases ((block.take 15).filterMap (fun ln => pat1 (pyStrip ln))).getLast? <;> rfl

/-! ### Full per-file parse (source `parse_file`, lines 82-219) -/

/-- One complete blast-hit row: block metadata plus the six hit fields
(source lines 173-185). -/
structure HitRow where
  BCG_identifier : Option (List Char)
  BCG_name : Option (List Char)
  BCG_type : Option (List Char)
  proteins_with_blast_hits : Option (List Char)
  cum_BLAST_Score : Option (List Char)
  query_gene : List Char
  subject_gene : List Char
  pct_identity : List Char
  blast_score : List Char
  pct_coverage : List Char
  evalue : List Char
deriving DecidableEq, Repr

/-- Break condition of the hits-table loop (source line 162): blank line,
`>>` marker, or ordinal-`BGC` line. -/
def isHitsBreak (ln : List Char) : Bool :=
  (pyStrip ln).isEmpty || isPrimaryMarker ln || isFallbackMarker ln

/-- Header line of the hits table (source line 153). -/
def isHitsTableHeader (ln : List Char) : Bool :=
  List.isPrefixOf ("Table of Blast hits".toList) (pyStrip ln)

/-- Parse one cluster block (source lines 118-210): extract the metadata
from the 15-line window, clean the identifier, locate the
`Table of Blast hits` header, and parse the following lines until a break
line, skipping unparseable lines. -/
def blockHits (block : List (List Char)) : List HitRow :=
  let meta := extractMeta block
  let bgc_id_clean := meta.bgc_id.map cleanBgcId
  match block.findIdx? isHitsTableHeader with
  | none => []
  | some k =>
    ((block.drop (k + 1)).takeWhile (fun ln => !isHitsBreak ln)).filterMap
      (fun ln => (parseHitLine ln).map (fun f =>
        ⟨bgc_id_clean, meta.source_name, meta.bgc_type,
         meta.proteins_with_hits, meta.cum_score,
         f.query_gene, f.subject_gene, f.pct_identity, f.blast_score,
         f.pct_coverage, f.evalue⟩))

/-- All hit rows of a report plus the second normalization pass of
`parse_file` (source lines 212-215). -/
def parseFileHits (lines : List (List Char)) : List HitRow :=
  ((parseBlocks lines).flatMap blockHits).map
    (fun r => { r with query_gene := normalize_gene_id r.query_gene })

/-- Break condition of the query-cluster loop (source line 41). -/
def queryBreak (ln : List Char) : Bool :=
  (pyStrip ln).isEmpty ||
    List.isPrefixOf ("Significant hits:".toList) (pyStrip ln) ||
    List.isPrefixOf ("Details:".toList) (pyStrip ln)

/-- `parse_query_cluster_block` (source lines 32-80): parse lines until a
break line, skipping unparseable ones, then re-normalize the gene column
(source line 79). -/
def parse_query_cluster_block (ls : List (List Char)) : List QueryFields :=
  ((ls.takeWhile (fun ln => !queryBreak ln)).filterMap parseQueryLine).map
    (fun r => { r with query_gene := normalize_gene_id r.query_gene })

/-- Header of the query-cluster table (source line 96). -/
def isQueryHeader (ln : List Char) : Bool :=
  List.isPrefixOf
    ("Table of genes, locations, strands and annotations of query cluster:".toList)
    (pyStrip ln)

/-- Query rows of a report (source lines 93-100) plus the re-normalization
pass of `parse_file` (source lines 216-217). -/
def parseFileQuery (lines : List (List Char)) : List QueryFields :=
  (match lines.findIdx? isQueryHeader with
   | none => ([] : List QueryFields)
   | some i => parse_query_cluster_block (lines.drop (i + 1))).map
    (fun (r : QueryFields) =>
      { r with query_gene := normalize_gene_id r.query_gene })

/-! ### Region tag from the filename (source lines 246-248) -/

/-- A match of one of the alternatives `_c\d+|_C\d+|_c\D*\d+` anchored at
the start of `l`, returning the captured text, alternatives tried in
regex order with greedy repetition. -/
def altAt (l : List Char) : Option (List Char) :=
  match l with
  | '_' :: c2 :: rest =>
    if c2 = 'c' then
      let ds := rest.takeWhile isDigitC
      if !ds.isEmpty then some ('_' :: 'c' :: ds)
      else
        let nd := rest.takeWhile (fun c => !isDigitC c)
        let ds2 := (rest.drop nd.length).takeWhile isDigitC
        if ds2.isEmpty then none else some ('_' :: 'c' :: (nd ++ ds2))
    else if c2 = 'C' then
      let ds := rest.takeWhile isDigitC
      if ds.isEmpty then none else some ('_' :: 'C' :: ds)
    else none
  | _ => none

/-- The leftmost match of the region pattern: `.*?` makes the group match
at the earliest possible start position. -/
def findRegion : List Char → Option (List Char)
  | [] => none
  | l@(_ :: cs) =>
    match altAt l with
    | some g => some g
    | none => findRegion cs

/-- `re.sub(r'.*?(_c\d+|_C\d+|_c\D*\d+).*', r'\1', fname)`: when the
pattern matches (anywhere), the whole string is replaced by the captured
group; otherwise the string is returned unchanged. -/
def regionOf (fname : List Char) : List Char :=
  match findRegion fname with
  | some g => g
  | none => fname

/-- `region_clean = region.lstrip('_') if region else ""`
(source line 248). -/
def regionClean (fname : List Char) : List Char :=
  let r := regionOf fname
  if r.isEmpty then [] else r.dropWhile (fun c => c = '_')

/-! ### Merge and diagnostics (source `process_sample`, lines 244-299) -/

/-- A hit row with its attached region column
(`hits_df["region"] = region_clean`, source line 260). -/
structure RegionRow where
  row : HitRow
  region : List Char
deriving DecidableEq, Repr

/-- `drop_duplicates(subset=["query_gene"])` keeping the first occurrence
of each key (source line 265). -/
def dedupQueryAux : List (List Char) → List QueryFields → List QueryFields
  | _, [] => []
  | seen, r :: rs =>
    if r.query_gene ∈ seen then dedupQueryAux seen rs
    else r :: dedupQueryAux (r.query_gene :: seen) rs

def drop_duplicates_query (l : List QueryFields) : List QueryFields :=
  dedupQueryAux [] l

/-- One row of the merged table: the hit columns, the joined query columns
(`none` when the join found no match) and thereby the `_merge` indicator
(`query_match = none` is `left_only`). -/
structure MergedRow where
  hit : RegionRow
  query_match : Option QueryFields
deriving DecidableEq, Repr

/-- `pd.merge(hits_df, query_sub, on="query_gene", how="left",
indicator=True)` (source line 276): every hit row paired with each
matching query row, or with `none` when no query row matches. -/
def leftJoinRows (hits : List RegionRow) (qs : List QueryFields) :
    List MergedRow :=
  hits.flatMap (fun h =>
    match qs.filter (fun q => q.query_gene = h.row.query_gene) with
    | [] => [⟨h, none⟩]
    | m :: ms => (m :: ms).map (fun q => ⟨h, some q⟩))

/-- The merged table of one report file (source lines 260-276): attach the
region, re-normalize the hit keys (line 272), de-duplicate then
re-normalize the query side (lines 265 and 274), and left-join. -/
def mergedRowsOf (fname : List Char) (lines : List (List Char)) :
    List MergedRow :=
  let hits := (parseFileHits lines).map
    (fun r => (⟨r, regionClean fname⟩ : RegionRow))
  let hits2 := hits.map (fun h =>
    (⟨{ h.row with query_gene := normalize_gene_id h.row.query_gene },
      h.region⟩ : RegionRow))
  let query_sub := (drop_duplicates_query (parseFileQuery lines)).map
    (fun q => { q with query_gene := normalize_gene_id q.query_gene })
  leftJoinRows hits2 query_sub

/-- Column headers of the merged DataFrame before the `_merge` drop:
the hit columns in dict-insertion order, the appended region, the joined
query columns, and the merge indicator. -/
def resultsColumns : List String :=
  ["BCG_identifier", "BCG_name", "BCG_type", "proteins_with_blast_hits",
   "cum_BLAST_Score", "query_gene", "subject_gene", "pct_identity",
   "blast_score", "pct_coverage", "evalue", "region",
   "start", "stop", "strand", "annotation"]

def mergedColumns : List String := resultsColumns ++ ["_merge"]

/-- One written output file: its name, its serialized column headers, and
its rows. -/
structure OutFile where
  name : List Char
  columns : List String
  rows : List MergedRow
deriving DecidableEq, Repr

/-- The files written for one report (source lines 252-296): nothing when
no hits were parsed; otherwise the unmatched-rows diagnostic (written
before the `_merge` column is dropped, hence with the indicator column,
and only when non-empty) followed by the per-file results table (with the
indicator dropped). -/
def processFileWrites (fname : List Char) (lines : List (List Char)) :
    List OutFile :=
  if (parseFileHits lines).isEmpty then []
  else
    let merged := mergedRowsOf fname lines
    let unmatched := merged.filter (fun r => r.query_match.isNone)
    (if unmatched.isEmpty then []
     else [⟨fname ++ ".unmatched_rows.csv".toList, mergedColumns, unmatched⟩])
      ++ [⟨fname ++ ".results.tsv".toList, resultsColumns, merged⟩]

/-! ### Claim C1: left-join cardinality -/

theorem filter_key_eq_nil_of_not_mem {qs : List QueryFields} {k : List Char}
    (h : k ∉ qs.map (fun q => q.query_gene)) :
    qs.filter (fun q => q.query_gene = k) = [] := by
  apply List.filter_eq_nil_iff.mpr
  intro a ha
  simp only [decide_eq_true_eq]
  intro hk
  exact h (by rw [← hk]; exact List.mem_map_of_mem _ ha)

/-- With pairwise-distinct query keys, at most one query row matches any
key. -/
theorem filter_key_len_le_one {qs : List QueryFields}
    (h : (qs.map (fun q => q.query_gene)).Nodup) (k : List Char) :
    (qs.filter (fun q => q.query_gene = k)).length ≤ 1 := by
  induction qs with
  | nil => simp
  | cons q t ih =>
    rw [List.map_cons, List.nodup_cons] at h
    by_cases hk : q.query_gene = k
    · rw [List.filter_cons_of_pos (by simp [hk])]
      have : t.filter (fun q => q.query_gene = k) = [] :=
        filter_key_eq_nil_of_not_mem (by rw [hk] at h; exact h.1)
      simp [this]
    · rw [List.filter_cons_of_neg (by simp [hk])]
      exact ih h.2

/-- A left join against a table with pairwise-distinct keys produces
exactly one output row per left row. -/
theorem leftJoinRows_length (hits : List RegionRow) (qs : List QueryFields)
    (h : (qs.map (fun q => q.query_gene)).Nodup) :
    (leftJoinRows hits qs).length = hits.length := by
  induction hits with
  | nil => rfl
  | cons hrow t ih =>
    unfold leftJoinRows at ih ⊢
    rw [List.flatMap_cons, List.length_append, ih, List.length_cons]
    have hle := filter_key_len_le_one h hrow.row.query_gene
    cases hf : qs.filter (fun q => q.query_gene = hrow.row.query_gene) with
    | nil => simp [Nat.add_comm]
    | cons m ms =>
      rw [hf] at hle
      simp only [List.length_cons] at hle
      have : ms = [] := List.length_eq_zero.mp (by omega)
      subst this
      simp [Nat.add_comm]

theorem dedupQueryAux_nodup :
    ∀ (l : List QueryFields) (seen : List (List Char)),
      ((dedupQueryAux seen l).map (fun q => q.query_gene)).Nodup ∧
      ∀ k ∈ seen, k ∉ (dedupQueryAux seen l).map (fun q => q.query_gene) := by
  intro l
  induction l with
  | nil => intro seen; exact ⟨List.nodup_nil, by intro k _ hk; simp [dedupQueryAux] at hk⟩
  | cons r rs ih =>
    intro seen
    by_cases hm : r.query_gene ∈ seen
    · simp only [dedupQueryAux, if_pos hm]
      exact ih seen
    · simp only [dedupQueryAux, if_neg hm, List.map_cons]
      obtain ⟨ih1, ih2⟩ := ih (r.query_gene :: seen)
      refine ⟨List.nodup_cons.mpr ⟨ih2 _ (List.mem_cons_self _ _), ih1⟩, ?_⟩
      intro k hk
      rw [List.mem_cons]
      rintro (h | h)
      · exact hm (h ▸ hk)
      · exact ih2 k (List.mem_cons_of_mem _ hk) h

/-- C1 (counterexample): a report on which the merged table has *more*
rows than the hit table.  The query table holds two gene ids that are
still distinct when `drop_duplicates` runs but collide under the extra
normalization pass applied *after* de-duplication (source line 274 runs
after line 265): `"a\x0b: \x0c, \x0c:"` needs four normalization passes
to reach `"a"`, while `"a"` is already normal, so the de-duplicated query
table carries two rows whose keys both become `"a"`, and the single hit
row keyed `"a"` joins against both of them. -/
theorem C1_counterexample :
    ¬ ((mergedRowsOf ("f.txt".toList)
        (["Table of genes, locations, strands and annotations of query cluster:".toList,
          "a\x0b: \x0c, \x0c:\t1\t2\t+\tann".toList,
          "a\t3\t4\t-\tann2".toList,
          "".toList,
          ">> 1".toList,
          "Table of Blast hits:".toList,
          "a\ts\t90\t200\t88\t1e-5".toList])).length =
      (parseFileHits
        (["Table of genes, locations, strands and annotations of query cluster:".toList,
          "a\x0b: \x0c, \x0c:\t1\t2\t+\tann".toList,
          "a\t3\t4\t-\tann2".toList,
          "".toList,
          ">> 1".toList,
          "Table of Blast hits:".toList,
          "a\ts\t90\t200\t88\t1e-5".toList])).length) := by decide

/-- C1 (amended): the merge is a left outer join keyed on the normalized
`query_gene`, performed after de-duplicating the query side keeping the
first occurrence of each gene id — and de-duplication does make the keys
pairwise distinct at that moment.  Provided those keys are still pairwise
distinct after the extra normalization pass that the code applies after
de-duplicating, the merged table has exactly one row per hit row
(`len(merged) == len(hits)`), however many query records exist or
match. -/
theorem C1_amended_thm :
    (∀ l : List QueryFields,
       ((drop_duplicates_query l).map (fun q => q.query_gene)).Nodup) ∧
    (∀ (fname : List Char) (lines : List (List Char)),
       (((drop_duplicates_query (parseFileQuery lines)).map
           (fun q => { q with query_gene := normalize_gene_id q.query_gene })).map
             (fun q => q.query_gene)).Nodup →
       (mergedRowsOf fname lines).length = (parseFileHits lines).length) := by
  constructor
  · intro l
    exact (dedupQueryAux_nodup l []).1
  · intro fname lines h
    unfold mergedRowsOf
    rw [leftJoinRows_length _ _ h, List.length_map, List.length_map]

/-- C1 witness: on a well-formed single-hit report the de-duplicated,
re-normalized query keys are distinct and the merged table has exactly as
many rows as the hit table. -/
theorem C1_amended_witness :
    (mergedRowsOf ("file_c3.txt".toList)
      (["Table of genes, locations, strands and annotations of query cluster:".toList,
        "geneA\t100\t200\t+\tkinase".toList,
        "".toList,
        ">> here".toList,
        "1. BGC0001089.5".toList,
        "Source: bacillaene".toList,
        "Type: NRPS".toList,
        "Table of Blast hits:".toList,
        "geneA\tsubjB\t95.0\t300\t88.0\t1e-20".toList])).length =
    (parseFileHits
      (["Table of genes, locations, strands and annotations of query cluster:".toList,
        "geneA\t100\t200\t+\tkinase".toList,
        "".toList,
        ">> here".toList,
        "1. BGC0001089.5".toList,
        "Source: bacillaene".toList,
        "Type: NRPS".toList,
        "Table of Blast hits:".toList,
        "geneA\tsubjB\t95.0\t300\t88.0\t1e-20".toList])).length :=
  C1_amended_thm.2 _ _ (by decide)

/-! ### Claim C8: reports with no markers at all -/

theorem mergedRowsOf_nil {lines : List (List Char)}
    (h : parseFileHits lines = []) (fname : List Char) :
    mergedRowsOf fname lines = [] := by
  unfold mergedRowsOf
  rw [h]
  rfl

/-- C8: a report with zero primary `>>` markers and zero fallback-pattern
matches parses to an empty hit list and causes no output files to be
written. -/
theorem C8_no_markers_no_output (lines : List (List Char))
    (h1 : idxsWhere isPrimaryMarker lines = [])
    (h2 : idxsWhere isFallbackMarker lines = []) :
    parseFileHits lines = [] ∧
    ∀ fname, processFileWrites fname lines = [] := by
  have hb : blockIdxs lines = [] := by
    unfold blockIdxs
    rw [if_pos h1]
    exact h2
  have hp : parseFileHits lines = [] := by
    unfold parseFileHits parseBlocks
    rw [hb]
    rfl
  refine ⟨hp, fun fname => ?_⟩
  unfold processFileWrites
  rw [hp]
  rfl

/-- C8 witness: a two-line report with neither marker yields no hits and
no writes. -/
theorem C8_no_markers_no_output_witness :
    parseFileHits (["hello world".toList, "no markers here".toList]) = [] ∧
    processFileWrites ("f.txt".toList)
      (["hello world".toList, "no markers here".toList]) = [] := by
  obtain ⟨h1, h2⟩ := C8_no_markers_no_output
    (["hello world".toList, "no markers here".toList]) (by decide) (by decide)
  exact ⟨h1, h2 _⟩

/-! ### Claim C9: the unmatched-rows diagnostic file -/

def unmatchedName (fname : List Char) : List Char :=
  fname ++ ".unmatched_rows.csv".toList

/-- C9 (counterexample): on a report whose single hit references a gene
absent from the query table, the unmatched-rows file is written with the
`_merge` indicator column still present — its column list is
`resultsColumns ++ ["_merge"]`, not the results table's columns, so its
contents are augmented with an extra column, contrary to the claim. -/
theorem C9_counterexample :
    ((processFileWrites ("r.txt".toList)
        (["Table of genes, locations, strands and annotations of query cluster:".toList,
          "geneA\t100\t200\t+\tkinase".toList,
          "".toList,
          ">> x".toList,
          "Table of Blast hits:".toList,
          "geneX\ts\t1\t2\t3\t4".toList])).map
      (fun f => (f.name, f.columns))) =
      [("r.txt.unmatched_rows.csv".toList, resultsColumns ++ ["_merge"]),
       ("r.txt.results.tsv".toList, resultsColumns)] ∧
    resultsColumns ++ ["_merge"] ≠ resultsColumns := by
  refine ⟨by decide, by decide⟩

/-- C9 (amended): the unmatched-rows file is written iff at least one
merged row has no query-side match, and its rows are exactly the
`left_only` subset of the merged table; but it is written *before* the
`_merge` indicator is dropped, so its columns are the merged table's
columns — the results table's columns plus the extra `_merge` column. -/
theorem C9_amended_thm (fname : List Char) (lines : List (List Char)) :
    (processFileWrites fname lines).filter
        (fun f => f.name = unmatchedName fname) =
      (if ((mergedRowsOf fname lines).filter
            (fun r => r.query_match.isNone)).isEmpty then []
       else [⟨unmatchedName fname, resultsColumns ++ ["_merge"],
         (mergedRowsOf fname lines).filter (fun r => r.query_match.isNone)⟩]) := by
  have hname : ¬ (fname ++ ".results.tsv".toList = unmatchedName fname) := by
    unfold unmatchedName
    intro h
    exact absurd (List.append_cancel_left h) (by decide)
  simp only [processFileWrites]
  by_cases hh : (parseFileHits lines).isEmpty
  · rw [if_pos hh]
    have hm : mergedRowsOf fname lines = [] :=
      mergedRowsOf_nil (List.isEmpty_iff.mp hh) fname
    rw [hm]
    rfl
  · rw [if_neg hh]
    by_cases hu : ((mergedRowsOf fname lines).filter
        (fun r => r.query_match.isNone)).isEmpty
    · rw [if_pos hu, if_pos hu, List.nil_append]
      rw [List.filter_cons_of_neg (by simpa using hname)]
      rfl
    · rw [if_neg hu, if_neg hu]
      rw [List.cons_append, List.nil_append,
        List.filter_cons_of_pos (by simp [unmatchedName, mergedColumns]),
        List.filter_cons_of_neg (by simpa using hname)]
      rfl

/-- C9 witness: on the single-unmatched-hit report the characterization
instantiates to the concrete unmatched file. -/
theorem C9_amended_witness :
    (processFileWrites ("r.txt".toList)
        (["Table of genes, locations, strands and annotations of query cluster:".toList,
          "geneA\t100\t200\t+\tkinase".toList,
          "".toList,
          ">> x".toList,
          "Table of Blast hits:".toList,
          "geneX\ts\t1\t2\t3\t4".toList])).filter
        (fun f => f.name = unmatchedName ("r.txt".toList)) =
      (if (((mergedRowsOf ("r.txt".toList)
          (["Table of genes, locations, strands and annotations of query cluster:".toList,
            "geneA\t100\t200\t+\tkinase".toList,
            "".toList,
            ">> x".toList,
            "Table of Blast hits:".toList,
            "geneX\ts\t1\t2\t3\t4".toList])).filter
            (fun r => r.query_match.isNone)).isEmpty) then []
       else [⟨unmatchedName ("r.txt".toList), resultsColumns ++ ["_merge"],
         (mergedRowsOf ("r.txt".toList)
          (["Table of genes, locations, strands and annotations of query cluster:".toList,
            "geneA\t100\t200\t+\tkinase".toList,
            "".toList,
            ">> x".toList,
            "Table of Blast hits:".toList,
            "geneX\ts\t1\t2\t3\t4".toList])).filter
            (fun r => r.query_match.isNone)⟩]) :=
  C9_amended_thm _ _

/-! ### Claim C10: region tag when the filename has no region pattern -/

theorem findRegion_eq_none {fname : List Char}
    (h : fname.tails.all (fun t => (altAt t).isNone) = true) :
    findRegion fname = none := by
  induction fname with
  | nil => rfl
  | cons a cs ih =>
    rw [List.tails_cons, List.all_cons, Bool.and_eq_true] at h
    unfold findRegion
    cases haa : altAt (a :: cs) with
    | some g => rw [haa] at h; simp at h
    | none => exact ih h.2

/-- C10: when no substring of the filename matches any of the region
patterns `_c\d+`, `_C\d+`, `_c\D*\d+`, the region tag equals the whole
original filename with leading underscores stripped — not an empty or
null value — and that tag is what is attached to every hit row of the
file. -/
theorem C10_region_fallback (fname : List Char) (rows : List HitRow)
    (h : fname.tails.all (fun t => (altAt t).isNone) = true) :
    regionClean fname = fname.dropWhile (fun c => c = '_') ∧
    ∀ rr ∈ rows.map (fun r => (⟨r, regionClean fname⟩ : RegionRow)),
      rr.region = fname.dropWhile (fun c => c = '_') := by
  have hr : regionOf fname = fname := by
    unfold regionOf
    rw [findRegion_eq_none h]
  have hc : regionClean fname = fname.dropWhile (fun c => c = '_') := by
    unfold regionClean
    rw [hr]
    cases fname with
    | nil => rfl
    | cons a cs => rw [if_neg (by simp)]
  refine ⟨hc, fun rr hrr => ?_⟩
  rw [List.mem_map] at hrr
  obtain ⟨r, _, hrr⟩ := hrr
  rw [← hrr, ← hc]

/-- C10 witness: the filename `__sample.txt` contains no region pattern;
its attached region tag is `sample.txt` (leading underscores stripped),
on a concrete hit row. -/
theorem C10_region_fallback_witness :
    regionClean ("__sample.txt".toList) = "sample.txt".toList ∧
    ∀ rr ∈ [(⟨none, none, none, none, none, "g".toList, "s".toList,
        "1".toList, "2".toList, "3".toList, "4".toList⟩ : HitRow)].map
        (fun r => (⟨r, regionClean ("__sample.txt".toList)⟩ : RegionRow)),
      rr.region = "sample.txt".toList := by
  obtain ⟨h1, h2⟩ := C10_region_fallback ("__sample.txt".toList)
    ([⟨none, none, none, none, none, "g".toList, "s".toList,
      "1".toList, "2".toList, "3".toList, "4".toList⟩]) (by decide)
  have he : ("__sample.txt".toList).dropWhile (fun c => c = '_') =
      "sample.txt".toList := by decide
  exact ⟨by rw [h1, he], by rw [he] at h2; exact h2⟩

end ClusterBlast

